import Mathlib

/-!
# Verification of the soundtoys synthesis engine

A shallow embedding of the core of the `soundtoys` crate
(`oscillators.rs`, `note.rs`, `player.rs`, `primitives.rs`, `sequencer.rs`)
together with proofs about its behaviour.

Modelling conventions:
* `f64` times, amplitudes and tempi are modelled as `ℚ` wherever the code
  only performs field arithmetic and comparisons, so that all definitions
  are executable.  The trigonometric oscillator code is modelled over `ℝ`.
* Lean's total division returns 0 for division by zero, while `f64`
  produces `inf`/`NaN`; theorems therefore carry positivity hypotheses for
  any divisor that the relevant claim exercises.
* `u8` arithmetic that can overflow (`note_id + 64`) is modelled by a
  checked addition returning `Option`, whose `none` case corresponds to
  the overflow (a panic under Rust's checked arithmetic).
* The background audio thread is modelled by making the current value of
  the tick counter an explicit argument (`now`), and the per-frame mixing
  callback an explicit function on the note collection.
* `rand::thread_rng().gen_range(-1.0..=1.0)` is modelled by an explicit
  `noise` argument, constrained to `[-1, 1]` in the theorems that use it.
-/

namespace SoundToys

/-- `f64::EPSILON`, the machine epsilon used by `EnvelopeADSR::amplitude`
to clamp tiny results to zero. -/
def f64Epsilon : ℚ := 1 / 2 ^ 52

/-- The envelope parameter record from `oscillators.rs`. -/
structure EnvelopeADSR where
  attack_time : ℚ
  decay_time : ℚ
  release_time : ℚ
  sustain_amplitude : ℚ
  start_amplitude : ℚ

/-- `EnvelopeADSR::default()` from `oscillators.rs`. -/
def EnvelopeADSR.default : EnvelopeADSR :=
  { attack_time := 1 / 10
    decay_time := 1 / 10
    release_time := 2 / 10
    sustain_amplitude := 1
    start_amplitude := 1 }

/-- `EnvelopeADSR::amplitude` from `oscillators.rs`, translated clause by
clause: the sounding branch (`time_on > time_off`) evaluates the
attack/decay chain at `time - time_on`; the released branch evaluates the
same chain at `time_off - time_on` and then applies the linear release
fade; finally any result `≤ f64::EPSILON` is clamped to `0`. -/
def EnvelopeADSR.amplitude (e : EnvelopeADSR) (time time_on time_off : ℚ) : ℚ :=
  let amplitude :=
    if time_on > time_off then
      let life_time := time - time_on
      if life_time ≤ e.attack_time then
        (life_time / e.attack_time) * e.start_amplitude
      else if life_time > e.attack_time ∧ life_time ≤ e.attack_time + e.decay_time then
        ((life_time - e.attack_time) / e.decay_time)
            * (e.sustain_amplitude - e.start_amplitude)
          + e.start_amplitude
      else
        e.sustain_amplitude
    else
      let life_time := time_off - time_on
      let release_amplitude :=
        if life_time ≤ e.attack_time then
          (life_time / e.attack_time) * e.start_amplitude
        else if life_time > e.attack_time ∧ life_time ≤ e.attack_time + e.decay_time then
          ((life_time - e.attack_time) / e.decay_time)
              * (e.sustain_amplitude - e.start_amplitude)
            + e.start_amplitude
        else
          e.sustain_amplitude
      ((time - time_off) / e.release_time) * (-release_amplitude) + release_amplitude
  if amplitude ≤ f64Epsilon then 0 else amplitude

/-- Modelled from the spec: "the amplitude *at the moment of release*",
i.e. the attack/decay formula of section 4.2 evaluated at
`offTime − onTime`. -/
def releaseLevelSpec (e : EnvelopeADSR) (time_on time_off : ℚ) : ℚ :=
  let life_time := time_off - time_on
  if life_time ≤ e.attack_time then
    (life_time / e.attack_time) * e.start_amplitude
  else if life_time ≤ e.attack_time + e.decay_time then
    ((life_time - e.attack_time) / e.decay_time)
        * (e.sustain_amplitude - e.start_amplitude)
      + e.start_amplitude
  else
    e.sustain_amplitude

/-- Modelled from the spec: "linearly fade that release-amplitude to 0
over releaseTime starting at offTime". -/
def releasedAmplitudeSpec (e : EnvelopeADSR) (time time_on time_off : ℚ) : ℚ :=
  releaseLevelSpec e time_on time_off * (1 - (time - time_off) / e.release_time)

/-! ## The player (`player.rs`, `primitives.rs`, `note.rs`) -/

/-- A boxed `dyn Instrument` is modelled by its `sound` method:
`(time, time_on, time_off, note_id) ↦ (sample, note_finished)`. -/
def Instr : Type := ℚ → ℚ → ℚ → ℕ → ℚ × Bool

/-- A trivial concrete instrument, used for concrete evaluations. -/
def instr0 : Instr := fun _ _ _ _ => (0, false)

/-- The `Note` record from `note.rs`.  `id` is the stored `u8` pitch,
`instrument_id` models the `TypeId` of the instrument. -/
structure Note where
  id : ℕ
  on_time : ℚ
  off_time : ℚ
  active : Bool
  channel : Instr
  instrument_id : ℕ

/-- The `Voice` record from `player.rs`. -/
structure Voice where
  instrument : Instr
  instrument_id : ℕ
  note_id : ℕ

/-- Checked `u8` addition: `none` models the overflow panic of Rust's
checked arithmetic (`a + b > 255`). -/
def u8add (a b : ℕ) : Option ℕ :=
  if a + b ≤ 255 then some (a + b) else none

/-- `SoundMaker::create_note` from `primitives.rs`: the stored pitch is
`note_id + 64`, `on` is the current tick time, `off` is `0.0` and the
note starts active.  The `u8` addition `note_id + 64` is checked. -/
def create_note (now : ℚ) (note_id : ℕ) (instrument_id : ℕ) (instrument : Instr) :
    Option Note :=
  (u8add note_id 64).map fun i =>
    { id := i
      on_time := now
      off_time := 0
      active := true
      channel := instrument
      instrument_id := instrument_id }

/-- Apply `f` to the first element of the list satisfying `p`
(`Iterator::find` on `iter_mut` followed by an in-place mutation);
`none` when no element matches. -/
def updateFirst (p : Note → Bool) (f : Note → Note) : List Note → Option (List Note)
  | [] => none
  | n :: rest =>
      if p n then some (f n :: rest)
      else (updateFirst p f rest).map (n :: ·)

/-- One iteration of the `for voice in voices` loop of
`Player::add_notes`: look for a note with `n.id == voice.note_id` and the
same instrument; if found, retrigger it only when `off >= on`; otherwise
push `create_note(voice.note_id, ...)`. -/
def add_note_one (now : ℚ) (notes : List Note) (v : Voice) : Option (List Note) :=
  match updateFirst
      (fun n => n.id == v.note_id && n.instrument_id == v.instrument_id)
      (fun n => if n.off_time ≥ n.on_time then { n with on_time := now, active := true } else n)
      notes with
  | some found => some found
  | none => (create_note now v.note_id v.instrument_id v.instrument).map (notes ++ [·])

/-- `Player::add_notes` from `player.rs`. -/
def add_notes (now : ℚ) (voices : List Voice) (notes : List Note) : Option (List Note) :=
  voices.foldlM (add_note_one now) notes

/-- One iteration of the `for voice in voices` loop of
`Player::remove_notes`: look for a note with `n.id == voice.note_id + 64`
and the same instrument; if found and `off <= on`, set `off` to the
current time.  The closure (and hence the checked `+ 64`) is only
evaluated when the collection is nonempty. -/
def remove_note_one (now : ℚ) (notes : List Note) (v : Voice) : Option (List Note) :=
  if notes.isEmpty then some notes
  else
    (u8add v.note_id 64).map fun target =>
      match updateFirst
          (fun n => n.id == target && n.instrument_id == v.instrument_id)
          (fun n => if n.off_time ≤ n.on_time then { n with off_time := now } else n)
          notes with
      | some found => found
      | none => notes

/-- `Player::remove_notes` from `player.rs`. -/
def remove_notes (now : ℚ) (voices : List Voice) (notes : List Note) : Option (List Note) :=
  voices.foldlM (remove_note_one now) notes

/-- The per-tick mixing callback installed by `Player::new`: evaluate
every note's instrument at the current time with the note's stored data,
mark notes flagged finished as inactive, retain the active ones, scale
the mixed output by `0.2` and optionally clamp it to `amplitude_limit`. -/
def tick (amplitude_limit : Option ℚ) (now : ℚ) (notes : List Note) : ℚ × List Note :=
  let evaluated := notes.map fun n =>
    let res := n.channel now n.on_time n.off_time n.id
    (res.1, if res.2 then { n with active := false } else n)
  let mixed_output := (evaluated.map Prod.fst).sum
  let kept := (evaluated.map Prod.snd).filter (fun n => n.active)
  let res := mixed_output * (2 / 10)
  (match amplitude_limit with
   | some limit => min res limit
   | none => res, kept)

/-! ## The percussion sequencer (`sequencer.rs`) -/

/-- The `PercussiveState` enum from `sequencer.rs`. -/
inductive PercussiveState where
  | Rest
  | Beat
deriving DecidableEq

/-- The `InstrumentObj` record from `sequencer.rs` (a boxed instrument
clone, its `TypeId` and its display name). -/
structure InstrumentObj where
  instrument : Instr
  instrument_id : ℕ
  instrument_name : String

/-- The `PercussionSequencer` state from `sequencer.rs`.  The `previous:
Instant` field is modelled by passing the elapsed real time to `update`
as an argument; the `HashMap` of channels is modelled as an association
list (one entry per `TypeId`, iteration order fixed by the list). -/
structure PercussionSequencer where
  beat_time : ℚ
  current_beat : ℕ
  total_beats : ℕ
  accumulate : ℚ
  channels : List (InstrumentObj × List PercussiveState)

/-- `PercussionSequencerBuilder::start` from `sequencer.rs`:
`beat_time = (60 / tempo) / sub_beats`, the beat index starts at 0, and
`total_beats = sub_beats * beats`. -/
def PercussionSequencerBuilder.start (tempo : ℚ) (beats sub_beats : ℕ)
    (channels : List (InstrumentObj × List PercussiveState)) : PercussionSequencer :=
  { beat_time := (60 / tempo) / (sub_beats : ℚ)
    current_beat := 0
    total_beats := sub_beats * beats
    accumulate := 0
    channels := channels }

/-- The result of running the `while` loop of
`PercussionSequencer::update` for a bounded number of iterations:
`ok` carries the emitted voices, the final accumulator and the final
beat index; `panic` is an out-of-bounds slot access
(`channel.1[self.current_beat]`); `spin` means the loop was still
running after the given number of iterations. -/
inductive SeqResult where
  | ok (voices : List Voice) (accumulate : ℚ) (current_beat : ℕ)
  | panic
  | spin

/-- The inner `for channel in &self.channels` loop of
`PercussionSequencer::update`: index every track's slot array at `b`
(`none` models the out-of-bounds panic) and emit a `Voice` with
`note_id = 64` for every track whose slot is `Beat`. -/
def beatVoices (channels : List (InstrumentObj × List PercussiveState)) (b : ℕ) :
    Option (List Voice) :=
  match channels with
  | [] => some []
  | c :: rest =>
      match c.2.get? b with
      | none => none
      | some st =>
          (beatVoices rest b).map fun vs =>
            if st = PercussiveState.Beat then
              ⟨c.1.instrument, c.1.instrument_id, 64⟩ :: vs
            else vs

/-- The slot lookup of the inner loop as a total function, defined for
indices below every track's length; used to state what `beatVoices`
returns when no panic occurs. -/
def beatVoicesTotal (channels : List (InstrumentObj × List PercussiveState)) (b : ℕ) :
    List Voice :=
  channels.filterMap fun c =>
    if (c.2.get? b).getD PercussiveState.Rest = PercussiveState.Beat then
      some ⟨c.1.instrument, c.1.instrument_id, 64⟩
    else none

/-- The `while self.accumulate >= self.beat_time` loop of
`PercussionSequencer::update`, with an explicit iteration bound `fuel`
(the Rust loop has no bound; `spin` reports that the bound was hit while
the guard still held).  Each iteration subtracts one beat duration,
advances the beat index with wrap-around, and appends the voices of the
newly-reached beat index. -/
def updateLoop (channels : List (InstrumentObj × List PercussiveState))
    (beat_time : ℚ) (total_beats : ℕ) :
    ℕ → ℚ → ℕ → List Voice → SeqResult
  | 0, acc, cur, out =>
    if acc ≥ beat_time then SeqResult.spin else SeqResult.ok out acc cur
  | fuel + 1, acc, cur, out =>
    if acc ≥ beat_time then
      let acc := acc - beat_time
      let cur := cur + 1
      let cur := if cur ≥ total_beats then 0 else cur
      match beatVoices channels cur with
      | none => SeqResult.panic
      | some vs => updateLoop channels beat_time total_beats fuel acc cur (out ++ vs)
    else SeqResult.ok out acc cur

/-- `PercussionSequencer::update` from `sequencer.rs`: add the elapsed
real time to the accumulator and run the beat-advancing loop. -/
def PercussionSequencer.update (fuel : ℕ) (s : PercussionSequencer)
    (elapsed_time : ℚ) : SeqResult :=
  updateLoop s.channels s.beat_time s.total_beats fuel
    (s.accumulate + elapsed_time) s.current_beat []

/-! ## The oscillators (`oscillators.rs`, `note.rs`)

These involve `sin`, `asin` and `π`, so they are modelled over `ℝ`. -/

noncomputable section

/-- The `Oscillator` enum from `oscillators.rs`. -/
inductive Oscillator where
  | Sine
  | Square
  | Triangle
  | SawAna (res : Option ℕ)
  | SawDig
  | Noise

/-- The `LowFrequencyOscillator` record from `oscillators.rs`. -/
structure LowFrequencyOscillator where
  hertz : ℝ
  amplitude : ℝ

/-- `LowFrequencyOscillator::default()`. -/
def LowFrequencyOscillator.defaultLfo : LowFrequencyOscillator :=
  { hertz := 0, amplitude := 0 }

/-- `w` from `note.rs`: frequency to angular velocity. -/
def w (hertz : ℝ) : ℝ := hertz * 2 * Real.pi

/-- The twelfth-root-of-two literal used by `scale` in `note.rs`. -/
def semitoneFactor : ℝ := 1.0594630943592952645618252949463

/-- `scale` from `note.rs`: `8.0 * semitoneFactor.powi(note_id)`. -/
def scale (note_id : ℤ) : ℝ := 8 * semitoneFactor ^ note_id

/-- Truncation toward zero, as used by Rust's `%` on `f64`. -/
def truncToward0 (x : ℝ) : ℤ := if 0 ≤ x then ⌊x⌋ else ⌈x⌉

/-- Rust's `%` on `f64`: `x - y * trunc(x / y)` (remainder with the sign
of the dividend). -/
def rustRem (x y : ℝ) : ℝ := x - y * (truncToward0 (x / y) : ℝ)

/-- The `freq` (instantaneous phase) computation at the top of `osc`:
`w(hertz) * time + lfo.amplitude * hertz * sin(w(lfo.hertz) * time)`,
with the LFO defaulting to `(0, 0)`. -/
def oscFreq (time hertz : ℝ) (lfo : Option LowFrequencyOscillator) : ℝ :=
  let lfo := lfo.getD LowFrequencyOscillator.defaultLfo
  w hertz * time + lfo.amplitude * hertz * Real.sin (w lfo.hertz * time)

/-- `osc` from `oscillators.rs`.  The extra `noise` argument models the
value drawn from `rand::thread_rng().gen_range(-1.0..=1.0)` in the
`Noise` arm (external randomness made explicit). -/
def osc (time hertz : ℝ) (osc_type : Oscillator)
    (lfo : Option LowFrequencyOscillator) (noise : ℝ) : ℝ :=
  let freq := oscFreq time hertz lfo
  match osc_type with
  | Oscillator.Sine => Real.sin freq
  | Oscillator.Square => if Real.sin freq > 0 then 1 else -1
  | Oscillator.Triangle => Real.arcsin (Real.sin freq) * (2 / Real.pi)
  | Oscillator.SawAna res =>
      let res := res.getD 50
      (∑ n ∈ Finset.Ico 1 res, Real.sin ((n : ℝ) * freq) / (n : ℝ)) * (2 / Real.pi)
  | Oscillator.SawDig =>
      (2 / Real.pi) * (hertz * Real.pi * rustRem time (1 / hertz) - Real.pi / 2)
  | Oscillator.Noise => noise

end

/-- A concrete percussion track object for concrete evaluations. -/
def kickObj : InstrumentObj := { instrument := instr0, instrument_id := 0, instrument_name := "kick" }

/-! ## Theorems -/

/-- C1: evaluation of the code at the failing input.  Adding the same
Voice (note_id 0, instrument 0) twice at time 1 starting from the empty
collection leaves TWO notes (both with stored id 64) in the collection:
the retrigger lookup `n.id == voice.note_id` can never match the stored
id `note_id + 64`, so a duplicate is inserted instead of retriggering. -/
theorem c1_add_twice_duplicates :
    (add_notes 1 [⟨instr0, 0, 0⟩, ⟨instr0, 0, 0⟩] []).map
      (fun ns => (ns.map Note.id, ns.length)) = some ([64, 64], 2) := by
  rfl

/-- C3 counterexample: at pitch id 255 (a `u8` the claim covers), both
`add_notes` (through `create_note`) and `remove_notes` (through the
match predicate) evaluate `note_id + 64`, which overflows `u8`:
the checked addition fails, i.e. the call aborts rather than merely
producing an out-of-range frequency. -/
theorem c3_overflow_counterexample :
    add_notes 0 [⟨instr0, 0, 255⟩] [] = none ∧
    remove_notes 0 [⟨instr0, 0, 255⟩]
      [{ id := 64, on_time := 0, off_time := 0, active := true,
         channel := instr0, instrument_id := 0 }] = none := by
  exact ⟨rfl, rfl⟩

/-- C4 counterexample: a builder configuration with `BEATS = 1` (each
track's slot array has length 1) but `beats = 2`, `sub_beats = 1`
(`total_beats = 2`): after one second at tempo 60 the advancing beat
index reaches 1 and the slot access `channel.1[1]` is out of bounds, so
`update` panics — refuting "update never fails for any beats and
subBeats counts". -/
theorem c4_oob_counterexample :
    PercussionSequencer.update 3
      (PercussionSequencerBuilder.start 60 2 1 [(kickObj, [PercussiveState.Beat])]) 1
      = SeqResult.panic := by
  show updateLoop _ _ _ 3 _ _ _ = _
  rw [show (3 : ℕ) = 2 + 1 from rfl]
  norm_num [PercussionSequencerBuilder.start, updateLoop, beatVoices]

/-- C5 counterexample: add a note at time 1, release it at time 1 (the
clock advances only with audio frames, so `off = on = 1`: release has
begun per the spec's `offTime ≥ onTime` criterion), then call remove
again at time 2.  The claim says this second removal of an
already-released note leaves the collection unchanged (off stays 1), but
the code's `off <= on` test fires at the boundary and re-stamps
`off := 2`. -/
theorem c5_rerelease_counterexample :
    (((add_notes 1 [⟨instr0, 0, 0⟩] []).bind
        (remove_notes 1 [⟨instr0, 0, 0⟩])).bind
        (remove_notes 2 [⟨instr0, 0, 0⟩])).map (List.map Note.off_time)
      = some [2] ∧ ((2 : ℚ) ≠ 1) := by
  exact ⟨rfl, by norm_num⟩

/-- C8 counterexample: two envelope parameter sets with all parameters
non-negative on which `amplitude` returns 2 ∉ [0,1]: (i) with
`start_amplitude = 2` the attack ramp reaches 2; (ii) with all
amplitudes ≤ 1, querying a released note at a time before `offTime`
extrapolates the release line to 2. -/
theorem c8_amplitude_gt_one :
    EnvelopeADSR.amplitude ⟨1, 1, 1, 1, 2⟩ 2 1 0 = 2 ∧
    EnvelopeADSR.amplitude ⟨1, 1, 1, 1, 1⟩ 0 0 1 = 2 ∧ ¬ ((2 : ℚ) ≤ 1) := by
  refine ⟨?_, ?_, by norm_num⟩ <;>
    norm_num [EnvelopeADSR.amplitude, f64Epsilon]

/-- C9 counterexample: the DigitalSaw arm at time −1/2 with frequency 1
returns −2 < −1 (Rust's `%` keeps the sign of the dividend, so at
negative times the sawtooth formula leaves [−1, 1]). -/
theorem c9_sawdig_below_neg_one :
    osc (-(1/2)) 1 Oscillator.SawDig none 0 < -1 := by
  have hrem : rustRem (-(1/2)) (1/1) = -(1/2) := by
    have h2 : truncToward0 ((-(1/2) : ℝ) / (1/1)) = 0 := by
      rw [truncToward0, if_neg (by norm_num)]
      rw [Int.ceil_eq_zero_iff]
      constructor <;> norm_num
    simp only [rustRem, h2, Int.cast_zero, mul_zero, sub_zero]
  show (2 / Real.pi) * (1 * Real.pi * rustRem (-(1/2)) (1/1) - Real.pi / 2) < -1
  rw [hrem]
  have hval : (2 / Real.pi) * (1 * Real.pi * (-(1/2)) - Real.pi / 2) = -2 := by
    field_simp
    ring
  rw [hval]
  norm_num

/-- The attack/decay level chain of `EnvelopeADSR::amplitude` never
exceeds 1 when the durations are non-negative and both amplitudes lie in
`[0, 1]`. -/
lemma adsrChain_le_one (e : EnvelopeADSR) (life : ℚ)
    (ha : 0 ≤ e.attack_time)
    (hs0 : 0 ≤ e.sustain_amplitude) (hs1 : e.sustain_amplitude ≤ 1)
    (hst0 : 0 ≤ e.start_amplitude) (hst1 : e.start_amplitude ≤ 1) :
    (if life ≤ e.attack_time then
        life / e.attack_time * e.start_amplitude
      else if life > e.attack_time ∧ life ≤ e.attack_time + e.decay_time then
        (life - e.attack_time) / e.decay_time
            * (e.sustain_amplitude - e.start_amplitude)
          + e.start_amplitude
      else e.sustain_amplitude) ≤ 1 := by
  split_ifs with h1 h2
  · rcases eq_or_lt_of_le ha with hA | hA
    · rw [← hA, div_zero, zero_mul]
      norm_num
    · have hr1 : life / e.attack_time ≤ 1 := (div_le_one hA).mpr h1
      nlinarith [mul_nonneg (sub_nonneg.mpr hr1) hst0]
  · obtain ⟨h2a, h2b⟩ := h2
    have hD : 0 < e.decay_time := by
      by_contra hD
      push_neg at hD
      linarith
    have hr0 : 0 ≤ (life - e.attack_time) / e.decay_time :=
      div_nonneg (by linarith) hD.le
    have hr1 : (life - e.attack_time) / e.decay_time ≤ 1 :=
      (div_le_one hD).mpr (by linarith)
    nlinarith [mul_nonneg (sub_nonneg.mpr hr1) (sub_nonneg.mpr hst1),
      mul_nonneg hr0 (sub_nonneg.mpr hs1)]
  · exact hs1

/-- The attack/decay level chain of `EnvelopeADSR::amplitude` is
non-negative at a non-negative life time. -/
lemma adsrChain_nonneg (e : EnvelopeADSR) (life : ℚ) (hl : 0 ≤ life)
    (ha : 0 ≤ e.attack_time)
    (hs0 : 0 ≤ e.sustain_amplitude) (hst0 : 0 ≤ e.start_amplitude) :
    0 ≤ (if life ≤ e.attack_time then
        life / e.attack_time * e.start_amplitude
      else if life > e.attack_time ∧ life ≤ e.attack_time + e.decay_time then
        (life - e.attack_time) / e.decay_time
            * (e.sustain_amplitude - e.start_amplitude)
          + e.start_amplitude
      else e.sustain_amplitude) := by
  split_ifs with h1 h2
  · exact mul_nonneg (div_nonneg hl ha) hst0
  · obtain ⟨h2a, h2b⟩ := h2
    have hD : 0 < e.decay_time := by
      by_contra hD
      push_neg at hD
      linarith
    have hr0 : 0 ≤ (life - e.attack_time) / e.decay_time :=
      div_nonneg (by linarith) hD.le
    have hr1 : (life - e.attack_time) / e.decay_time ≤ 1 :=
      (div_le_one hD).mpr (by linarith)
    nlinarith [mul_nonneg (sub_nonneg.mpr hr1) hst0, mul_nonneg hr0 hs0]
  · exact hs0

/-- The linear release fade `q * (-ra) + ra` never exceeds 1 for a
non-negative fade progress `q` and a release level `ra ∈ [0, 1]`. -/
lemma fade_le_one (q ra : ℚ) (hq : 0 ≤ q) (h0 : 0 ≤ ra) (h1 : ra ≤ 1) :
    q * (-ra) + ra ≤ 1 := by
  nlinarith [mul_nonneg hq h0]

/-- The final clamp of `EnvelopeADSR::amplitude`: whenever the pre-clamp
value is at most 1, the clamped value lies in `[0, 1]` and satisfies the
epsilon-to-zero property. -/
lemma clamp_bounds (x : ℚ) (hx : x ≤ 1) :
    0 ≤ (if x ≤ f64Epsilon then 0 else x) ∧
    (if x ≤ f64Epsilon then 0 else x) ≤ 1 ∧
    ((if x ≤ f64Epsilon then 0 else x) ≤ f64Epsilon →
      (if x ≤ f64Epsilon then 0 else x) = 0) := by
  have heps : (0 : ℚ) < f64Epsilon := by norm_num [f64Epsilon]
  split_ifs with h
  · exact ⟨le_refl 0, by norm_num, fun _ => rfl⟩
  · push_neg at h
    exact ⟨by linarith, hx, fun hc => absurd hc (not_le.mpr h)⟩

/-- C7: whenever the `time_on > time_off` test fails (the note has been
released), `EnvelopeADSR::amplitude` equals the epsilon-clamped value of
the spec's release formula: the attack/decay level evaluated at
`offTime - onTime`, faded linearly to 0 over `releaseTime` starting at
`offTime`.  In particular a note released mid-attack fades from its
in-flight attack level, not from the sustain amplitude. -/
theorem c7_release_from_inflight (e : EnvelopeADSR) (time time_on time_off : ℚ)
    (h : ¬ time_on > time_off) :
    EnvelopeADSR.amplitude e time time_on time_off =
      if releasedAmplitudeSpec e time time_on time_off ≤ f64Epsilon then 0
      else releasedAmplitudeSpec e time time_on time_off := by
  have key : ∀ x : ℚ,
      (time - time_off) / e.release_time * (-x) + x =
        x * (1 - (time - time_off) / e.release_time) := by
    intro x; ring
  simp only [EnvelopeADSR.amplitude, if_neg h, releasedAmplitudeSpec,
    releaseLevelSpec, key]
  by_cases h1 : time_off - time_on ≤ e.attack_time
  · simp [h1]
  · by_cases h2 : time_off - time_on ≤ e.attack_time + e.decay_time
    · simp [h1, h2, not_le.mp h1]
    · simp [h1, h2]

/-- C7 witness: with `attack_time = 1`, `release_time = 1`, releasing
0.5 s into the attack: at the moment of release the amplitude is
`0.5 * start_amplitude = 1/2`, not the sustain amplitude `4/5`. -/
theorem c7_release_from_inflight_witness :
    ¬ ((0 : ℚ) > 1 / 2) ∧
    EnvelopeADSR.amplitude ⟨1, 1 / 10, 1, 4 / 5, 1⟩ (1 / 2) 0 (1 / 2) =
      (if releasedAmplitudeSpec ⟨1, 1 / 10, 1, 4 / 5, 1⟩ (1 / 2) 0 (1 / 2) ≤ f64Epsilon
        then 0
        else releasedAmplitudeSpec ⟨1, 1 / 10, 1, 4 / 5, 1⟩ (1 / 2) 0 (1 / 2)) ∧
    releasedAmplitudeSpec ⟨1, 1 / 10, 1, 4 / 5, 1⟩ (1 / 2) 0 (1 / 2) = 1 / 2 := by
  refine ⟨by norm_num,
    c7_release_from_inflight ⟨1, 1 / 10, 1, 4 / 5, 1⟩ (1 / 2) 0 (1 / 2) (by norm_num), ?_⟩
  norm_num [releasedAmplitudeSpec, releaseLevelSpec]

/-- C8 (amended): for all envelope parameters with strictly positive
attack and release times (the two durations the code divides by — with
either at 0 the `f64` code produces `0.0/0.0` or `inf * 0` NaNs, which
escape the `≤ EPSILON` clamp; a zero decay time is harmless because its
branch condition is then unsatisfiable and no division runs), start and
sustain amplitudes in `[0, 1]`, and all query times at or after
`time_off`, the amplitude lies in `[0, 1]` and any value at or below
machine epsilon is exactly 0. -/
theorem c8_amplitude_bounds (e : EnvelopeADSR) (time time_on time_off : ℚ)
    (ha : 0 < e.attack_time) (hr : 0 < e.release_time)
    (hs0 : 0 ≤ e.sustain_amplitude) (hs1 : e.sustain_amplitude ≤ 1)
    (hst0 : 0 ≤ e.start_amplitude) (hst1 : e.start_amplitude ≤ 1)
    (hto : time_off ≤ time) :
    0 ≤ EnvelopeADSR.amplitude e time time_on time_off ∧
    EnvelopeADSR.amplitude e time time_on time_off ≤ 1 ∧
    (EnvelopeADSR.amplitude e time time_on time_off ≤ f64Epsilon →
      EnvelopeADSR.amplitude e time time_on time_off = 0) := by
  simp only [EnvelopeADSR.amplitude]
  refine clamp_bounds _ ?_
  by_cases hon : time_on > time_off
  · rw [if_pos hon]
    exact adsrChain_le_one e (time - time_on) ha.le hs0 hs1 hst0 hst1
  · rw [if_neg hon]
    exact fade_le_one _ _ (div_nonneg (by linarith) hr.le)
      (adsrChain_nonneg e (time_off - time_on) (by push_neg at hon; linarith) ha.le hs0 hst0)
      (adsrChain_le_one e (time_off - time_on) ha.le hs0 hs1 hst0 hst1)

/-- C8 witness: the default envelope parameters (attack 0.1 s > 0,
release 0.2 s > 0), queried on a note released at time 1/2 and observed
at time 1. -/
theorem c8_amplitude_bounds_witness :
    (0 : ℚ) < EnvelopeADSR.default.attack_time ∧
    (0 : ℚ) < EnvelopeADSR.default.release_time ∧
    ((1 : ℚ) / 2 ≤ 1) ∧
    0 ≤ EnvelopeADSR.amplitude EnvelopeADSR.default 1 0 (1 / 2) ∧
    EnvelopeADSR.amplitude EnvelopeADSR.default 1 0 (1 / 2) ≤ 1 := by
  have h := c8_amplitude_bounds EnvelopeADSR.default 1 0 (1 / 2)
    (by norm_num [EnvelopeADSR.default]) (by norm_num [EnvelopeADSR.default])
    (by norm_num [EnvelopeADSR.default]) (by norm_num [EnvelopeADSR.default])
    (by norm_num [EnvelopeADSR.default]) (by norm_num [EnvelopeADSR.default])
    (by norm_num)
  exact ⟨by norm_num [EnvelopeADSR.default], by norm_num [EnvelopeADSR.default],
    by norm_num, h.1, h.2.1⟩

/-- C10 counterexample: at time 0 the phase is 0 and `sin 0 = 0`, yet
the Square arm returns −1, not the claimed +1 (the code tests
`sin(freq) > 0.0` and falls to the `-1` branch at exactly zero). -/
theorem c10_square_neg_at_zero :
    Real.sin (oscFreq 0 1 none) = 0 ∧ osc 0 1 Oscillator.Square none 0 = -1 := by
  have h : oscFreq 0 1 none = 0 := by
    simp [oscFreq, w, LowFrequencyOscillator.defaultLfo]
  constructor
  · rw [h, Real.sin_zero]
  · show (if Real.sin (oscFreq 0 1 none) > 0 then (1 : ℝ) else -1) = -1
    rw [h, Real.sin_zero]
    norm_num

/-- C10 (amended): the Square arm returns `+1` exactly when
`sin(phase) > 0`, and `-1` whenever `sin(phase) ≤ 0` — including `-1`
(not `+1`) when `sin(phase)` is exactly zero. -/
theorem c10_square_sign (time hertz : ℝ) (lfo : Option LowFrequencyOscillator)
    (noise : ℝ) :
    (0 < Real.sin (oscFreq time hertz lfo) →
      osc time hertz Oscillator.Square lfo noise = 1) ∧
    (Real.sin (oscFreq time hertz lfo) ≤ 0 →
      osc time hertz Oscillator.Square lfo noise = -1) := by
  constructor
  · intro h
    show (if Real.sin (oscFreq time hertz lfo) > 0 then (1 : ℝ) else -1) = 1
    rw [if_pos h]
  · intro h
    show (if Real.sin (oscFreq time hertz lfo) > 0 then (1 : ℝ) else -1) = -1
    rw [if_neg (not_lt.mpr h)]

/-- C10 witness: at time 0 with frequency 1 the phase is 0, `sin 0 ≤ 0`,
and the Square arm returns `-1`. -/
theorem c10_square_sign_witness :
    Real.sin (oscFreq 0 1 none) ≤ 0 ∧ osc 0 1 Oscillator.Square none 0 = -1 := by
  have h : oscFreq 0 1 none = 0 := by
    simp [oscFreq, w, LowFrequencyOscillator.defaultLfo]
  have hs : Real.sin (oscFreq 0 1 none) ≤ 0 := by rw [h, Real.sin_zero]
  exact ⟨hs, (c10_square_sign 0 1 none 0).2 hs⟩

/-- C9 (amended): the oscillator output lies in `[-1, 1]` for the Sine,
Square, Triangle and Noise arms at all real inputs (given that the drawn
noise sample lies in `[-1, 1]`), and for the DigitalSaw arm at
non-negative times and positive frequencies.  The AnalogSaw arm is
excluded: its truncated Fourier sum overshoots `±1` (Gibbs), and the
DigitalSaw arm leaves `[-1, 1]` at negative times. -/
theorem c9_osc_bounds (time hertz : ℝ) (lfo : Option LowFrequencyOscillator)
    (noise : ℝ) (k : Oscillator)
    (hn1 : -1 ≤ noise) (hn2 : noise ≤ 1)
    (hk : k = Oscillator.Sine ∨ k = Oscillator.Square ∨ k = Oscillator.Triangle ∨
      k = Oscillator.Noise ∨ (k = Oscillator.SawDig ∧ 0 ≤ time ∧ 0 < hertz)) :
    -1 ≤ osc time hertz k lfo noise ∧ osc time hertz k lfo noise ≤ 1 := by
  have hπ : (0 : ℝ) < Real.pi := Real.pi_pos
  rcases hk with rfl | rfl | rfl | rfl | ⟨rfl, ht, hh⟩
  · exact ⟨Real.neg_one_le_sin _, Real.sin_le_one _⟩
  · show -1 ≤ (if Real.sin (oscFreq time hertz lfo) > 0 then (1 : ℝ) else -1) ∧
      (if Real.sin (oscFreq time hertz lfo) > 0 then (1 : ℝ) else -1) ≤ 1
    split_ifs <;> norm_num
  · show -1 ≤ Real.arcsin (Real.sin (oscFreq time hertz lfo)) * (2 / Real.pi) ∧
      Real.arcsin (Real.sin (oscFreq time hertz lfo)) * (2 / Real.pi) ≤ 1
    have h1 := Real.neg_pi_div_two_le_arcsin (Real.sin (oscFreq time hertz lfo))
    have h2 := Real.arcsin_le_pi_div_two (Real.sin (oscFreq time hertz lfo))
    have hp : (0 : ℝ) ≤ 2 / Real.pi := by positivity
    have key : Real.pi * (2 / Real.pi) = 2 := by field_simp
    constructor
    · nlinarith [mul_nonneg
        (by linarith : (0 : ℝ) ≤ Real.arcsin (Real.sin (oscFreq time hertz lfo)) + Real.pi / 2) hp]
    · nlinarith [mul_nonneg
        (by linarith : (0 : ℝ) ≤ Real.pi / 2 - Real.arcsin (Real.sin (oscFreq time hertz lfo))) hp]
  · exact ⟨hn1, hn2⟩
  · show -1 ≤ 2 / Real.pi * (hertz * Real.pi * rustRem time (1 / hertz) - Real.pi / 2) ∧
      2 / Real.pi * (hertz * Real.pi * rustRem time (1 / hertz) - Real.pi / 2) ≤ 1
    have hy : (0 : ℝ) < 1 / hertz := by positivity
    have hhne : hertz ≠ 0 := ne_of_gt hh
    have hπne : Real.pi ≠ 0 := ne_of_gt hπ
    have htq : 0 ≤ time / (1 / hertz) := div_nonneg ht hy.le
    have hrem : rustRem time (1 / hertz) =
        (1 / hertz) * Int.fract (time / (1 / hertz)) := by
      have hfr : Int.fract (time / (1 / hertz)) =
          time / (1 / hertz) - (⌊time / (1 / hertz)⌋ : ℝ) := rfl
      simp only [rustRem, truncToward0, if_pos htq, hfr]
      field_simp
    have hu0 : 0 ≤ Int.fract (time / (1 / hertz)) := Int.fract_nonneg _
    have hu1 : Int.fract (time / (1 / hertz)) < 1 := Int.fract_lt_one _
    have hval : 2 / Real.pi *
        (hertz * Real.pi * ((1 / hertz) * Int.fract (time / (1 / hertz))) - Real.pi / 2) =
        2 * Int.fract (time / (1 / hertz)) - 1 := by
      field_simp
      ring
    rw [hrem, hval]
    constructor <;> linarith

/-- C9 witness: the Sine arm at time 0, frequency 1, noise sample 0. -/
theorem c9_osc_bounds_witness :
    ((-1 : ℝ) ≤ 0) ∧ ((0 : ℝ) ≤ 1) ∧
    -1 ≤ osc 0 1 Oscillator.Sine none 0 ∧ osc 0 1 Oscillator.Sine none 0 ≤ 1 := by
  have h := c9_osc_bounds 0 1 none 0 Oscillator.Sine (by norm_num) (by norm_num) (Or.inl rfl)
  exact ⟨by norm_num, by norm_num, h.1, h.2⟩

/-- A note whose id/instrument do not both match gives `false` on the
matching predicate used by `remove_notes`. -/
lemma matchBool_eq_false (n : Note) (t i : ℕ)
    (h : ¬(n.id = t ∧ n.instrument_id = i)) :
    (n.id == t && n.instrument_id == i) = false := by
  cases hb : (n.id == t && n.instrument_id == i)
  · rfl
  · obtain ⟨h1, h2⟩ := Bool.and_eq_true_iff.mp hb
    exact absurd ⟨beq_iff_eq.mp h1, beq_iff_eq.mp h2⟩ h

/-- `updateFirst` finds nothing when the predicate is everywhere false. -/
lemma updateFirst_eq_none (p : Note → Bool) (f : Note → Note) :
    ∀ l : List Note, (∀ n ∈ l, p n = false) → updateFirst p f l = none := by
  intro l h
  induction l with
  | nil => rfl
  | cons n rest ih =>
      simp only [updateFirst, h n (List.mem_cons_self n rest), Bool.false_eq_true,
        if_false, ih (fun m hm => h m (List.mem_cons_of_mem _ hm)), Option.map_none']

/-- If the update function fixes every element the predicate accepts,
`updateFirst` either finds nothing or returns the list unchanged. -/
lemma updateFirst_id_of (p : Note → Bool) (f : Note → Note) :
    ∀ l : List Note, (∀ n ∈ l, p n = true → f n = n) →
      updateFirst p f l = none ∨ updateFirst p f l = some l := by
  intro l h
  induction l with
  | nil => exact Or.inl rfl
  | cons n rest ih =>
      by_cases hp : p n = true
      · right
        rw [updateFirst, if_pos hp, h n (List.mem_cons_self n rest) hp]
      · rcases ih (fun m hm hpm => h m (List.mem_cons_of_mem _ hm) hpm) with h' | h'
        · left
          rw [updateFirst, if_neg hp, h', Option.map_none']
        · right
          rw [updateFirst, if_neg hp, h', Option.map_some']

/-- `updateFirst` skips a prefix of non-matching elements and rewrites
the first matching element. -/
lemma updateFirst_append (p : Note → Bool) (f : Note → Note) (n : Note)
    (hn : p n = true) :
    ∀ pre post : List Note, (∀ m ∈ pre, p m = false) →
      updateFirst p f (pre ++ n :: post) = some (pre ++ f n :: post) := by
  intro pre
  induction pre with
  | nil => intro post _; simp [updateFirst, hn]
  | cons m rest ih =>
      intro post hpre
      rw [List.cons_append, updateFirst,
        if_neg (by simp [hpre m (List.mem_cons_self m rest)]),
        ih post (fun x hx => hpre x (List.mem_cons_of_mem _ hx))]
      rfl

/-- `add_note_one` succeeds whenever the voice's pitch id is at most
191 (so that `note_id + 64` fits in a `u8`). -/
lemma add_note_one_isSome (now : ℚ) (notes : List Note) (v : Voice)
    (h : v.note_id ≤ 191) : (add_note_one now notes v).isSome := by
  rw [add_note_one]
  cases hup : updateFirst
      (fun n => n.id == v.note_id && n.instrument_id == v.instrument_id)
      (fun n => if n.off_time ≥ n.on_time then { n with on_time := now, active := true } else n)
      notes with
  | none => simp [create_note, u8add, show v.note_id + 64 ≤ 255 from by omega]
  | some ns => rfl

/-- `remove_note_one` succeeds whenever the voice's pitch id is at most
191. -/
lemma remove_note_one_isSome (now : ℚ) (notes : List Note) (v : Voice)
    (h : v.note_id ≤ 191) : (remove_note_one now notes v).isSome := by
  rw [remove_note_one]
  by_cases he : notes.isEmpty
  · rw [if_pos he]; rfl
  · rw [if_neg he]
    simp [u8add, show v.note_id + 64 ≤ 255 from by omega]

/-- `add_notes` succeeds on any batch of voices with pitch ids at most
191. -/
lemma add_notes_isSome (now : ℚ) (voices : List Voice) :
    ∀ notes : List Note, (∀ v ∈ voices, v.note_id ≤ 191) →
      (add_notes now voices notes).isSome := by
  induction voices with
  | nil => intro notes _; rfl
  | cons v vs ih =>
      intro notes h
      rw [add_notes, List.foldlM_cons]
      have h1 := add_note_one_isSome now notes v (h v (List.mem_cons_self _ _))
      cases hx : add_note_one now notes v with
      | none => rw [hx] at h1; simp at h1
      | some ns =>
          simpa [add_notes] using ih ns (fun u hu => h u (List.mem_cons_of_mem _ hu))

/-- `remove_notes` succeeds on any batch of voices with pitch ids at
most 191. -/
lemma remove_notes_isSome (now : ℚ) (voices : List Voice) :
    ∀ notes : List Note, (∀ v ∈ voices, v.note_id ≤ 191) →
      (remove_notes now voices notes).isSome := by
  induction voices with
  | nil => intro notes _; rfl
  | cons v vs ih =>
      intro notes h
      rw [remove_notes, List.foldlM_cons]
      have h1 := remove_note_one_isSome now notes v (h v (List.mem_cons_self _ _))
      cases hx : remove_note_one now notes v with
      | none => rw [hx] at h1; simp at h1
      | some ns =>
          simpa [remove_notes] using ih ns (fun u hu => h u (List.mem_cons_of_mem _ hu))

/-- C3 (amended): for every pitch id at most 191 (so that the internal
`note_id + 64` offset fits in a `u8`), `add_notes` and `remove_notes`
complete without failure on any collection; for larger ids the `+ 64`
overflows `u8` (see the counterexample), so the claim's "any u8, 0
through 255" does not hold. -/
theorem c3_no_failure_below_192 (now : ℚ) (voices : List Voice) (notes : List Note)
    (h : ∀ v ∈ voices, v.note_id ≤ 191) :
    (add_notes now voices notes).isSome ∧ (remove_notes now voices notes).isSome :=
  ⟨add_notes_isSome now voices notes h, remove_notes_isSome now voices notes h⟩

/-- C3 witness: a single voice at pitch id 0 on the empty collection. -/
theorem c3_no_failure_below_192_witness :
    ((0 : ℕ) ≤ 191) ∧
    (add_notes 0 [⟨instr0, 0, 0⟩] []).isSome ∧
    (remove_notes 0 [⟨instr0, 0, 0⟩] []).isSome := by
  have h := c3_no_failure_below_192 0 [⟨instr0, 0, 0⟩] []
    (by intro u hu; simp only [List.mem_singleton] at hu; subst hu; norm_num)
  exact ⟨by norm_num, h.1, h.2⟩

/-- C5 (amended): `remove_notes` (i) leaves the collection unchanged and
succeeds when no note matches the voice's `note_id + 64` and instrument;
(ii) leaves the collection unchanged when every matching note has
`off_time > on_time` (release strictly begun) — removal of a
strictly-released or missing note is an idempotent no-op; (iii) sets the
first matching note's `off_time` to the current time whenever that note
has `off_time ≤ on_time` — which includes the boundary
`off_time = on_time`, where the code re-stamps an already-released note
(see the counterexample). -/
theorem c5_remove_semantics (now : ℚ) (v : Voice) (h191 : v.note_id ≤ 191) :
    (∀ notes : List Note,
      (∀ n ∈ notes, ¬(n.id = v.note_id + 64 ∧ n.instrument_id = v.instrument_id)) →
      remove_notes now [v] notes = some notes) ∧
    (∀ notes : List Note,
      (∀ n ∈ notes, n.id = v.note_id + 64 → n.instrument_id = v.instrument_id →
        n.on_time < n.off_time) →
      remove_notes now [v] notes = some notes) ∧
    (∀ (pre post : List Note) (n : Note),
      (∀ m ∈ pre, ¬(m.id = v.note_id + 64 ∧ m.instrument_id = v.instrument_id)) →
      n.id = v.note_id + 64 → n.instrument_id = v.instrument_id →
      n.off_time ≤ n.on_time →
      remove_notes now [v] (pre ++ n :: post) =
        some (pre ++ { n with off_time := now } :: post)) := by
  have hsingle : ∀ notes : List Note,
      remove_notes now [v] notes = remove_note_one now notes v := by
    intro notes
    rw [remove_notes, List.foldlM_cons]
    cases hx : remove_note_one now notes v with
    | none => rfl
    | some ns => rfl
  have hov : v.note_id + 64 ≤ 255 := by omega
  refine ⟨?_, ?_, ?_⟩
  · intro notes h
    rw [hsingle]
    rw [remove_note_one]
    by_cases he : notes.isEmpty
    · rw [if_pos he]
    · rw [if_neg he]
      simp only [u8add, if_pos hov, Option.map_some']
      rw [updateFirst_eq_none _ _ notes (fun n hn => matchBool_eq_false n _ _ (h n hn))]
  · intro notes h
    rw [hsingle]
    rw [remove_note_one]
    by_cases he : notes.isEmpty
    · rw [if_pos he]
    · rw [if_neg he]
      simp only [u8add, if_pos hov, Option.map_some']
      have hid : ∀ n ∈ notes,
          (fun n : Note => n.id == v.note_id + 64 && n.instrument_id == v.instrument_id) n
            = true →
          (fun n : Note =>
              if n.off_time ≤ n.on_time then { n with off_time := now } else n) n = n := by
        intro n hn hp
        obtain ⟨h1, h2⟩ := Bool.and_eq_true_iff.mp hp
        have := h n hn (beq_iff_eq.mp h1) (beq_iff_eq.mp h2)
        simp only [if_neg (not_le.mpr this)]
      rcases updateFirst_id_of _ _ notes hid with h' | h' <;> rw [h']
  · intro pre post n hpre hid hinst hoff
    rw [hsingle]
    rw [remove_note_one, if_neg (by simp)]
    simp only [u8add, if_pos hov, Option.map_some']
    rw [updateFirst_append _ _ n (by simp [hid, hinst])
      pre post (fun m hm => matchBool_eq_false m _ _ (hpre m hm))]
    simp only [if_pos hoff]

/-- C5 witness: a single matching note with `off_time = 0 ≤ on_time = 1`
has its `off_time` stamped to the removal time 2. -/
theorem c5_remove_semantics_witness :
    ((0 : ℕ) ≤ 191) ∧
    remove_notes 2 [⟨instr0, 0, 0⟩]
      [{ id := 64, on_time := 1, off_time := 0, active := true,
         channel := instr0, instrument_id := 0 }] =
      some [{ id := 64, on_time := 1, off_time := 2, active := true,
              channel := instr0, instrument_id := 0 }] := by
  have h := (c5_remove_semantics 2 ⟨instr0, 0, 0⟩ (by norm_num)).2.2 [] []
    { id := 64, on_time := 1, off_time := 0, active := true,
      channel := instr0, instrument_id := 0 }
    (by intro m hm; simp at hm) (by norm_num) rfl (by norm_num)
  simpa using h

/-- C2: the Note created for a Voice with pitch id `nid ≤ 191` stores
`id = nid + 64` (with `on_time` the creation time, `off_time = 0`,
active); the per-tick mix evaluates the note's instrument at that
stored, shifted id; `remove_notes` on the originating voice finds the
note (stamping its `off_time`), while `add_notes` on the same voice does
not find it and appends a duplicate (collection length 2); and the
frequency of the shifted pitch is `semitoneFactor ^ 64` times the
frequency of the requested pitch (64 semitones above). -/
theorem c2_shifted_pitch_invariant (now now2 t : ℚ) (nid iid : ℕ) (ch : Instr) (mz : ℤ)
    (h : nid ≤ 191) (h0 : 0 ≤ now) :
    ∃ n : Note, create_note now nid iid ch = some n ∧
      n.id = nid + 64 ∧ n.on_time = now ∧ n.off_time = 0 ∧ n.active = true ∧
      (tick none t [n]).1 = (ch t now 0 (nid + 64)).1 * (2 / 10) ∧
      (remove_notes now2 [⟨ch, iid, nid⟩] [n]).map (List.map Note.off_time) =
        some [now2] ∧
      (add_notes now2 [⟨ch, iid, nid⟩] [n]).map List.length = some 2 ∧
      scale (mz + 64) = scale mz * semitoneFactor ^ (64 : ℕ) := by
  have hov : nid + 64 ≤ 255 := by omega
  refine ⟨{ id := nid + 64, on_time := now, off_time := 0, active := true,
            channel := ch, instrument_id := iid },
    ?_, rfl, rfl, rfl, rfl, ?_, ?_, ?_, ?_⟩
  · simp [create_note, u8add, hov]
  · simp [tick]
  · simp [remove_notes, List.foldlM, remove_note_one, u8add, hov, updateFirst, h0]
  · have hne : ¬(nid + 64 = nid) := by omega
    simp [add_notes, List.foldlM, add_note_one, updateFirst, hne, create_note, u8add, hov]
  · have hc : semitoneFactor ≠ 0 := by norm_num [semitoneFactor]
    rw [scale, scale, show (mz + 64 : ℤ) = mz + ((64 : ℕ) : ℤ) from by push_cast; ring,
      zpow_add₀ hc, zpow_natCast]
    ring

/-- C2 witness: pitch id 0 creates a note with stored id 64 at time 1;
ticking at time 3 feeds id 64 to the instrument; removing at time 2
finds it; adding again duplicates it. -/
theorem c2_shifted_pitch_invariant_witness :
    ((0 : ℕ) ≤ 191) ∧ ((0 : ℚ) ≤ 1) ∧
    ∃ n : Note, create_note 1 0 0 instr0 = some n ∧
      n.id = 0 + 64 ∧ n.on_time = 1 ∧ n.off_time = 0 ∧ n.active = true ∧
      (tick none 3 [n]).1 = (instr0 3 1 0 (0 + 64)).1 * (2 / 10) ∧
      (remove_notes 2 [⟨instr0, 0, 0⟩] [n]).map (List.map Note.off_time) =
        some [2] ∧
      (add_notes 2 [⟨instr0, 0, 0⟩] [n]).map List.length = some 2 ∧
      scale (5 + 64) = scale 5 * semitoneFactor ^ (64 : ℕ) :=
  ⟨by norm_num, by norm_num,
    c2_shifted_pitch_invariant 1 2 3 0 0 instr0 5 (by norm_num) (by norm_num)⟩

/-- When the beat index is below every track's length, the inner loop
performs no out-of-bounds access and returns the total-function value. -/
lemma beatVoices_of_lt :
    ∀ (channels : List (InstrumentObj × List PercussiveState)) (b : ℕ),
      (∀ c ∈ channels, b < c.2.length) →
      beatVoices channels b = some (beatVoicesTotal channels b) := by
  intro channels
  induction channels with
  | nil => intro b _; rfl
  | cons c rest ih =>
      intro b h
      have hb : b < c.2.length := h c (List.mem_cons_self c rest)
      obtain ⟨st, hst⟩ : ∃ st, c.2.get? b = some st :=
        ⟨c.2.get ⟨b, hb⟩, List.get?_eq_get hb⟩
      rw [beatVoices, hst]
      dsimp only
      rw [ih b (fun x hx => h x (List.mem_cons_of_mem _ hx))]
      simp only [List.get?_eq_getElem?] at hst
      by_cases hbeat : st = PercussiveState.Beat <;>
        simp [beatVoicesTotal, List.filterMap_cons, hst, hbeat]

/-- Every voice emitted by the inner loop carries `note_id = 64`. -/
lemma beatVoicesTotal_note_id (channels : List (InstrumentObj × List PercussiveState))
    (b : ℕ) : ∀ u ∈ beatVoicesTotal channels b, u.note_id = 64 := by
  intro u hu
  rw [beatVoicesTotal] at hu
  obtain ⟨c, -, hc⟩ := List.mem_filterMap.mp hu
  by_cases hbeat : (c.2.get? b).getD PercussiveState.Rest = PercussiveState.Beat
  · rw [if_pos hbeat] at hc
    obtain rfl := Option.some.inj hc
    rfl
  · rw [if_neg hbeat] at hc
    simp at hc

/-- The branch-free form of the wrap-around beat advance. -/
lemma wrapSucc_eq_mod (cur total : ℕ) (h : cur < total) :
    (if cur + 1 ≥ total then 0 else cur + 1) = (cur + 1) % total := by
  rcases Nat.lt_or_ge (cur + 1) total with h1 | h1
  · rw [if_neg (Nat.not_le.mpr h1), Nat.mod_eq_of_lt h1]
  · have h2 : cur + 1 = total := by omega
    rw [if_pos h1, h2, Nat.mod_self]

/-- The beat-advancing loop never performs an out-of-bounds slot access
when `1 ≤ total_beats` and every track is at least `total_beats` long,
whatever the fuel, accumulator, current index and output so far. -/
lemma updateLoop_ne_panic (channels : List (InstrumentObj × List PercussiveState))
    (bt : ℚ) (total : ℕ) (h1 : 1 ≤ total)
    (hlen : ∀ c ∈ channels, total ≤ c.2.length) :
    ∀ (fuel : ℕ) (acc : ℚ) (cur : ℕ) (out : List Voice),
      updateLoop channels bt total fuel acc cur out ≠ SeqResult.panic := by
  intro fuel
  induction fuel with
  | zero =>
      intro acc cur out
      rw [updateLoop]
      split_ifs <;> simp
  | succ f ih =>
      intro acc cur out
      rw [updateLoop]
      by_cases hc : acc ≥ bt
      · rw [if_pos hc]
        dsimp only
        have hcur : (if cur + 1 ≥ total then 0 else cur + 1) < total := by
          split_ifs with hw
          · omega
          · omega
        rw [beatVoices_of_lt channels _
          (fun c hcm => lt_of_lt_of_le hcur (hlen c hcm))]
        exact ih _ _ _
      · rw [if_neg hc]
        simp

/-- C4 (amended): provided the builder's `beats * sub_beats` is between
1 and the length of every track's slot array (the `BEATS` const
generic), `PercussionSequencer::update` never performs an out-of-bounds
slot access — it never panics, for any tempo, elapsed time and iteration
bound.  (Without the bound `beats * sub_beats ≤ BEATS` the slot access
panics: see the counterexample.) -/
theorem c4_update_no_panic (tempo : ℚ) (beats sub_beats BEATS : ℕ)
    (channels : List (InstrumentObj × List PercussiveState))
    (fuel : ℕ) (elapsed : ℚ)
    (hch : ∀ c ∈ channels, c.2.length = BEATS)
    (h1 : 1 ≤ sub_beats * beats) (h2 : sub_beats * beats ≤ BEATS) :
    PercussionSequencer.update fuel
      (PercussionSequencerBuilder.start tempo beats sub_beats channels) elapsed ≠
      SeqResult.panic := by
  rw [PercussionSequencer.update, PercussionSequencerBuilder.start]
  exact updateLoop_ne_panic channels _ _ h1
    (fun c hc => by rw [hch c hc]; exact h2) fuel _ _ _

/-- C4 witness: a 16-slot track with `beats = 4`, `sub_beats = 4`
(`total_beats = 16 = BEATS`) never panics. -/
theorem c4_update_no_panic_witness :
    PercussionSequencer.update 5
      (PercussionSequencerBuilder.start 120 4 4
        [(kickObj, [PercussiveState.Rest, PercussiveState.Beat, PercussiveState.Beat,
          PercussiveState.Rest, PercussiveState.Rest, PercussiveState.Rest,
          PercussiveState.Rest, PercussiveState.Rest, PercussiveState.Rest,
          PercussiveState.Rest, PercussiveState.Rest, PercussiveState.Rest,
          PercussiveState.Rest, PercussiveState.Rest, PercussiveState.Rest,
          PercussiveState.Rest])]) 1 ≠ SeqResult.panic := by
  exact c4_update_no_panic 120 4 4 16 _ 5 1
    (by intro c hc; simp only [List.mem_singleton] at hc; subst hc; rfl)
    (by norm_num) (by norm_num)

/-- The exact behaviour of the beat loop: with a positive beat duration,
an in-range current index and tracks at least `total` long, the loop
iterates exactly `⌊acc / bt⌋.toNat` times, removes that many beat
durations from the accumulator, advances the index modulo `total`, and
appends one voice batch per advance in index order. -/
lemma updateLoop_ok (channels : List (InstrumentObj × List PercussiveState))
    (bt : ℚ) (total : ℕ) (hbt : 0 < bt)
    (hlen : ∀ c ∈ channels, total ≤ c.2.length) :
    ∀ (k fuel : ℕ) (acc : ℚ) (cur : ℕ) (out : List Voice),
      cur < total → ⌊acc / bt⌋.toNat = k → k ≤ fuel →
      updateLoop channels bt total fuel acc cur out =
        SeqResult.ok
          (out ++ (List.map
            (fun i => beatVoicesTotal channels ((cur + i + 1) % total))
            (List.range k)).flatten)
          (acc - (k : ℚ) * bt) ((cur + k) % total) := by
  intro k
  induction k with
  | zero =>
      intro fuel acc cur out hcur hk _
      have hfl : ⌊acc / bt⌋ ≤ 0 := by omega
      have hlt : ¬ acc ≥ bt := by
        rw [ge_iff_le, not_le]
        have hc0 : (⌊acc / bt⌋ : ℚ) ≤ 0 := by exact_mod_cast hfl
        have h1 : acc / bt < 1 := by
          have := Int.lt_floor_add_one (acc / bt)
          linarith
        exact (div_lt_one hbt).mp h1
      cases fuel with
      | zero =>
          rw [updateLoop, if_neg hlt]
          simp [Nat.mod_eq_of_lt hcur]
      | succ f =>
          rw [updateLoop, if_neg hlt]
          simp [Nat.mod_eq_of_lt hcur]
  | succ k ih =>
      intro fuel acc cur out hcur hk hfl
      have htotal : 0 < total := lt_of_le_of_lt (Nat.zero_le _) hcur
      have hfloor : ⌊acc / bt⌋ = (k : ℤ) + 1 := by omega
      have hge : acc ≥ bt := by
        have h2 : ((1 : ℤ) : ℚ) ≤ (⌊acc / bt⌋ : ℚ) := by
          exact_mod_cast (by omega : (1 : ℤ) ≤ ⌊acc / bt⌋)
        have h1 : (1 : ℚ) ≤ acc / bt := by
          have := Int.floor_le (acc / bt)
          push_cast at h2
          linarith
        exact (one_le_div hbt).mp h1
      obtain ⟨f, rfl⟩ : ∃ f, fuel = f + 1 := ⟨fuel - 1, by omega⟩
      rw [updateLoop, if_pos hge]
      dsimp only
      rw [wrapSucc_eq_mod cur total hcur]
      have hcur1 : (cur + 1) % total < total := Nat.mod_lt _ htotal
      rw [beatVoices_of_lt channels _ (fun c hc => lt_of_lt_of_le hcur1 (hlen c hc))]
      dsimp only
      have hacc : ⌊(acc - bt) / bt⌋.toNat = k := by
        have hd : (acc - bt) / bt = acc / bt - 1 := by
          rw [sub_div, div_self hbt.ne']
        rw [hd, show (1 : ℚ) = ((1 : ℤ) : ℚ) from by norm_num, Int.floor_sub_int]
        omega
      rw [ih f (acc - bt) ((cur + 1) % total) _ hcur1 hacc (by omega)]
      congr 1
      · rw [List.append_assoc]
        congr 1
        rw [List.range_succ_eq_map, List.map_cons, List.flatten_cons, List.map_map]
        have hhead : cur + 0 + 1 = cur + 1 := by omega
        have hfun : ((fun i => beatVoicesTotal channels ((cur + i + 1) % total)) ∘ Nat.succ) =
            fun i => beatVoicesTotal channels (((cur + 1) % total + i + 1) % total) := by
          funext i
          simp only [Function.comp_apply]
          congr 1
          rw [Nat.succ_eq_add_one]
          calc (cur + (i + 1) + 1) % total
              = (cur + 1 + (i + 1)) % total := by
                rw [show cur + (i + 1) + 1 = cur + 1 + (i + 1) from by omega]
            _ = ((cur + 1) % total + (i + 1)) % total := (Nat.mod_add_mod _ _ _).symm
            _ = ((cur + 1) % total + i + 1) % total := by rw [add_assoc]
        rw [hhead, hfun]
      · push_cast
        ring
      · rw [Nat.mod_add_mod]
        have h9 : cur + 1 + k = cur + (k + 1) := by omega
        rw [h9]

/-- C6: a single `update` call performs exactly
`⌊(accumulate + elapsed) / beat_time⌋` sub-beat advances, keeps the
remainder in the accumulator, wraps the beat index modulo `total_beats`,
and emits — in beat-index order — one batch per advance holding one
Voice per track whose slot at the newly-reached index is `Beat`, each
with `note_id = 64`. -/
theorem c6_update_advances (s : PercussionSequencer) (elapsed : ℚ) (fuel : ℕ)
    (hbt : 0 < s.beat_time) (hcur : s.current_beat < s.total_beats)
    (hlen : ∀ c ∈ s.channels, s.total_beats ≤ c.2.length)
    (hfuel : ⌊(s.accumulate + elapsed) / s.beat_time⌋.toNat ≤ fuel) :
    PercussionSequencer.update fuel s elapsed =
      SeqResult.ok
        ((List.map (fun i => beatVoicesTotal s.channels
            ((s.current_beat + i + 1) % s.total_beats))
          (List.range (⌊(s.accumulate + elapsed) / s.beat_time⌋.toNat))).flatten)
        (s.accumulate + elapsed -
          ((⌊(s.accumulate + elapsed) / s.beat_time⌋.toNat : ℕ) : ℚ) * s.beat_time)
        ((s.current_beat + ⌊(s.accumulate + elapsed) / s.beat_time⌋.toNat) %
          s.total_beats) ∧
    ∀ u ∈ (List.map (fun i => beatVoicesTotal s.channels
        ((s.current_beat + i + 1) % s.total_beats))
      (List.range (⌊(s.accumulate + elapsed) / s.beat_time⌋.toNat))).flatten,
      u.note_id = 64 := by
  constructor
  · have h := updateLoop_ok s.channels s.beat_time s.total_beats hbt hlen
      (⌊(s.accumulate + elapsed) / s.beat_time⌋.toNat) fuel
      (s.accumulate + elapsed) s.current_beat [] hcur rfl hfuel
    rw [PercussionSequencer.update, h, List.nil_append]
  · intro u hu
    obtain ⟨l, hl, hul⟩ := List.mem_flatten.mp hu
    obtain ⟨i, _, rfl⟩ := List.mem_map.mp hl
    exact beatVoicesTotal_note_id _ _ u hul

/-- C6 witness: tempo 120, beats 4, subBeats 4 gives a sub-beat duration
of 1/8 s; 0.3 s of elapsed time in one call yields exactly 2 sub-beat
advances (⌊0.3/0.125⌋ = 2) with their two Voice batches, accumulator
remainder 0.05 s, and final beat index 2. -/
theorem c6_update_advances_witness :
    PercussionSequencer.update 16
      (PercussionSequencerBuilder.start 120 4 4
        [(kickObj, List.replicate 16 PercussiveState.Beat)]) (3 / 10) =
      SeqResult.ok [⟨instr0, 0, 64⟩, ⟨instr0, 0, 64⟩] (1 / 20) 2 := by
  have harg : ((PercussionSequencerBuilder.start (120 : ℚ) 4 4
        [(kickObj, List.replicate 16 PercussiveState.Beat)]).accumulate + 3 / 10) /
      (PercussionSequencerBuilder.start (120 : ℚ) 4 4
        [(kickObj, List.replicate 16 PercussiveState.Beat)]).beat_time = 12 / 5 := by
    norm_num [PercussionSequencerBuilder.start]
  have hfloor : ⌊(12 / 5 : ℚ)⌋ = 2 := by
    rw [Int.floor_eq_iff] <;> norm_num
  have h6 := (c6_update_advances
    (PercussionSequencerBuilder.start 120 4 4
      [(kickObj, List.replicate 16 PercussiveState.Beat)]) (3 / 10) 16
    (by norm_num [PercussionSequencerBuilder.start])
    (by norm_num [PercussionSequencerBuilder.start])
    (by
      intro c hc
      simp only [PercussionSequencerBuilder.start, List.mem_singleton] at hc
      subst hc
      simp [PercussionSequencerBuilder.start])
    (by rw [harg, hfloor]; norm_num)).1
  rw [h6, harg, hfloor]
  have hacc : ((PercussionSequencerBuilder.start (120 : ℚ) 4 4
        [(kickObj, List.replicate 16 PercussiveState.Beat)]).accumulate + 3 / 10 -
      (((2 : ℤ).toNat : ℕ) : ℚ) * (PercussionSequencerBuilder.start (120 : ℚ) 4 4
        [(kickObj, List.replicate 16 PercussiveState.Beat)]).beat_time) = 1 / 20 := by
    show (0 : ℚ) + 3 / 10 - (((2 : ℤ).toNat : ℕ) : ℚ) * ((60 / 120) / ((4 : ℕ) : ℚ)) = 1 / 20
    norm_num [show ((2 : ℤ).toNat : ℕ) = 2 from rfl]
  rw [hacc]
  rfl

end SoundToys
